import Mathlib

/-!
Verification of the dependency-splitting pass of
`src/ufl/algorithms/dependencies.py` via a shallow embedding.

Modelling conventions:
* Python object identity (the `is` operator) is modelled by giving every
  expression node an allocation identifier `uid`; freshly constructed
  nodes receive fresh uids from a counter threaded through the splitter
  state, mirroring the global allocator.
* Python dicts keyed by `DependencySet` are modelled as association
  lists with structural key equality: `__hash__` hashes the flag tuple,
  which determines the whole value, so dict key matching (hash equality
  followed by `==`) coincides with structural equality.
* `ufl_assert` failures and `error` calls are modelled by `Option`
  (`none` = fatal failure).
* Machine floats never influence control flow here, so literal values are
  carried as opaque integers.
-/

/-- Pairwise boolean or of two tuples.
Modelled from the spec: `ufl.common.or_tuples` is not under src; the spec
(§3) says union combines flags by pairwise logical OR. -/
def or_tuples (a b : List Bool) : List Bool := List.zipWith or a b

/-- Pairwise boolean and of two tuples.
Modelled from the spec: `ufl.common.and_tuples` is not under src; the spec
(§3) says intersection combines flags by pairwise logical AND. -/
def and_tuples (a b : List Bool) : List Bool := List.zipWith and a b

/-- `DependencySet` (dependencies.py lines 34-89): one flag for runtime
dependence, one for spatial-coordinate dependence, one per basis-function
slot. -/
structure DependencySet where
  runtime : Bool
  coordinates : Bool
  basisfunctions : List Bool
deriving Repr, DecidableEq

namespace DependencySet

/-- `iter`: `chain((self.runtime, self.coordinates), self.basisfunctions)`. -/
def iter (d : DependencySet) : List Bool :=
  d.runtime :: d.coordinates :: d.basisfunctions

/-- `size`: the number of flags. -/
def size (d : DependencySet) : Nat := d.iter.length

/-- `covers` (lines 52-57): False iff some flag of `other` is set but the
corresponding flag of `self` is not; `zip` truncates like Python `zip`. -/
def covers (self other : DependencySet) : Bool :=
  (self.iter.zip other.iter).all fun p => !(p.2 && !p.1)

/-- A Python bool used as an integer (False = 0, True = 1), as in the
comparisons of `__cmp__`. -/
def pyInt (b : Bool) : Nat := if b then 1 else 0

/-- The loop of `__cmp__` (lines 62-66), transcribed exactly as written in
the source: the first comparison is `a < b` but the second is `a > 1`
(not `a > b`); `izip` truncates to the shorter sequence. -/
def cmpFlags : List Bool → List Bool → Int
  | a :: ta, b :: tb =>
      if pyInt a < pyInt b then -1
      else if pyInt a > 1 then 1
      else cmpFlags ta tb
  | _, _ => 0

/-- `__cmp__` on two dependency sets. -/
def cmp (x y : DependencySet) : Int := cmpFlags x.iter y.iter

/-- Python `==` / `!=` on `DependencySet` instances go through `__cmp__`
(no `__eq__` is defined): equal iff `__cmp__` returns 0. -/
def beqPy (x y : DependencySet) : Bool := x.cmp y == 0

/-- `__hash__` (lines 59-60) is `hash(tuple(self.iter()))`: the hash key
is exactly the flag tuple. -/
def hashKey (d : DependencySet) : List Bool := d.iter

/-- `__or__` (lines 68-73): pairwise or of the basis-function flags, or of
runtime flags, or of coordinates flags. -/
def or (x y : DependencySet) : DependencySet :=
  { runtime := x.runtime || y.runtime
    coordinates := x.coordinates || y.coordinates
    basisfunctions := or_tuples x.basisfunctions y.basisfunctions }

/-- `__and__` (lines 75-80): pairwise and of all flags. -/
def and (x y : DependencySet) : DependencySet :=
  { runtime := x.runtime && y.runtime
    coordinates := x.coordinates && y.coordinates
    basisfunctions := and_tuples x.basisfunctions y.basisfunctions }

end DependencySet

/-- Expression nodes: a shallow embedding of the `ufl.expr.Expr` subclass
variants the splitter dispatches on.  `uid` models Python object identity.
`opNode` stands for every generic n-ary internal node (Product, Sum,
Indexed, ListTensor, ...) handled by the fallback `expr` rule, with `kind`
tagging the concrete Python class (so `type(x)(*ops)` preserves it). -/
inductive UExpr where
  | floatValue (uid : Nat) (val : Int)
  | intValue (uid : Nat) (val : Int)
  | zero (uid : Nat)
  | multiIndex (uid : Nat) (ii : List Nat)
  | basisFunction (uid : Nat) (idx : Nat)
  | function (uid : Nat) (idx : Nat)
  | facetNormal (uid : Nat)
  | variable (uid : Nat) (label : Nat) (expression : UExpr)
  | spatialDerivative (uid : Nat) (f : UExpr) (ii : UExpr)
  | opNode (uid : Nat) (kind : Nat) (operands : List UExpr)

namespace UExpr

/-- The allocation identifier of a node (models `id(x)`). -/
def uid : UExpr → Nat
  | .floatValue u _ => u
  | .intValue u _ => u
  | .zero u => u
  | .multiIndex u _ => u
  | .basisFunction u _ => u
  | .function u _ => u
  | .facetNormal u => u
  | .variable u _ _ => u
  | .spatialDerivative u _ _ => u
  | .opNode u _ _ => u

/-- `x.label()._count` for a Variable node, `none` otherwise. -/
def varLabel : UExpr → Option Nat
  | .variable _ l _ => some l
  | _ => none

/-- `operands()` of a node (empty for terminals). -/
def operandsList : UExpr → List UExpr
  | .variable _ _ e => [e]
  | .spatialDerivative _ f ii => [f, ii]
  | .opNode _ _ ops => ops
  | _ => []

end UExpr

/-- `isinstance(o, (MultiIndex, Zero, FloatValue, IntValue))`: the operand
types that are never promoted to variables (line 292). -/
def _skiptype : UExpr → Bool
  | .multiIndex _ _ => true
  | .zero _ => true
  | .floatValue _ _ => true
  | .intValue _ _ => true
  | _ => false

/-- `VariableInfo` (dependencies.py lines 106-123): a variable paired with
its dependency set. The `diffcache` field is never consulted by the
splitting pass and is omitted. `variable` is a Lean keyword, so the field
is named `var`. -/
structure VariableInfo where
  var : UExpr
  deps : DependencySet

/-- `CodeStructure` (lines 146-151): `variableinfo` maps a variable count
to its VariableInfo; `stacks` maps a DependencySet to the ordered stack of
VariableInfos discovered with that dependency profile. Both Python dicts
are modelled as insertion-ordered association lists. -/
structure CodeStructure where
  variableinfo : List (Nat × VariableInfo)
  stacks' : List (DependencySet × List VariableInfo)

/-- The fresh CodeStructure created by `DependencySplitter.__init__`. -/
def emptyCodeStructure : CodeStructure := ⟨[], []⟩

/-- Dict lookup in `variableinfo` (`.get(count, None)`). -/
def lookupVI : List (Nat × VariableInfo) → Nat → Option VariableInfo
  | [], _ => none
  | p :: rest, c => if p.1 = c then some p.2 else lookupVI rest c

/-- `self.codestructure.stacks[deps].append(vinfo)` on the defaultdict:
append to the stack of the (structurally) matching key, or create a new
singleton stack. -/
def stackAppend : List (DependencySet × List VariableInfo) → DependencySet →
    VariableInfo → List (DependencySet × List VariableInfo)
  | [], d, vi => [(d, [vi])]
  | (k, st) :: rest, d, vi =>
      if k = d then (k, st ++ [vi]) :: rest
      else (k, st) :: stackAppend rest d vi

/-- The read-only inputs of a `DependencySplitter`: the renumbering maps of
`formdata` (keyed here by the id carried in a basis-function / function
node) and the caller-supplied per-slot dependency sets. -/
structure SplitterCtx where
  basisfunction_renumbering : List (Nat × Nat)
  coefficient_renumbering : List (Nat × Nat)
  basisfunction_deps : List DependencySet
  function_deps : List DependencySet

/-- Dict lookup in a renumbering map. -/
def lookupRenumbering : List (Nat × Nat) → Nat → Option Nat
  | [], _ => none
  | p :: rest, c => if p.1 = c then some p.2 else lookupRenumbering rest c

/-- The mutable state of a splitting run: the CodeStructure under
construction plus the allocation counters for node uids and variable
labels (the global `Label` counter). -/
structure SplitterState where
  codestructure : CodeStructure
  nextUid : Nat
  nextLabel : Nat

namespace DependencySplitter

/-- `make_empty_deps` (lines 226-227). -/
def make_empty_deps (ctx : SplitterCtx) : DependencySet :=
  ⟨false, false, List.replicate ctx.basisfunction_deps.length false⟩

/-- `register_expression` (lines 307-326): wrap `e` in a Variable (reusing
it if it is one and no count is forced, allocating a fresh label if
needed); if the count is unregistered, create a VariableInfo, record it in
`variableinfo` and append it to the stack keyed by `deps`; otherwise
return the existing VariableInfo and leave the registry unchanged. -/
def register_expression (e : UExpr) (deps : DependencySet) (count : Option Nat)
    (s : SplitterState) : VariableInfo × SplitterState :=
  let vs : UExpr × SplitterState :=
    match count, e with
    | none, .variable u l ex => (UExpr.variable u l ex, s)
    | none, _ => (UExpr.variable s.nextUid s.nextLabel e,
                  { s with nextUid := s.nextUid + 1, nextLabel := s.nextLabel + 1 })
    | some c, _ => (UExpr.variable s.nextUid c e, { s with nextUid := s.nextUid + 1 })
  let v := vs.1
  let s1 := vs.2
  let cnt := v.varLabel.getD 0
  match lookupVI s1.codestructure.variableinfo cnt with
  | some vinfo => (vinfo, s1)
  | none =>
      let vinfo : VariableInfo := ⟨v, deps⟩
      (vinfo,
       { s1 with codestructure :=
          { variableinfo := s1.codestructure.variableinfo ++ [(cnt, vinfo)]
            stacks' := stackAppend s1.codestructure.stacks' deps vinfo } })

/-- The promotion loop inside `expr` (lines 290-298): skip-typed operands
pass through, every other operand is registered as a variable and replaced
by `(vinfo.variable, vinfo.deps)`. -/
def promoteOps : List (UExpr × DependencySet) → SplitterState →
    List (UExpr × DependencySet) × SplitterState
  | [], s => ([], s)
  | o :: rest, s =>
      if _skiptype o.1 then
        let pr := promoteOps rest s
        (o :: pr.1, pr.2)
      else
        let r := register_expression o.1 o.2 none s
        let pr := promoteOps rest r.2
        ((r.1.var, r.1.deps) :: pr.1, pr.2)

/-- The combined dependency set of `expr` (lines 284-286):
`d = ops[0][1]` then `d |= o[1]` over the remaining operands. -/
def combinedDeps (d0 : DependencySet) (rest : List (UExpr × DependencySet)) :
    DependencySet :=
  rest.foldl (fun a o => a.or o.2) d0

/-- `expr` (lines 281-305), the generic rule for internal nodes: combine
the visited operands' dependency sets; if any operand's set differs from
the combination (under the source's `!=`), promote the non-skip-typed
operands to variables; reuse `x` when every resulting operand is (by
identity) the original one, otherwise reconstruct `type(x)(*ops)`. -/
def expr (x : UExpr) (ops : List (UExpr × DependencySet)) (s : SplitterState) :
    Option ((UExpr × DependencySet) × SplitterState) :=
  match x with
  | .opNode _ k xops =>
      match ops with
      | [] => none
      | o0 :: rest =>
          let d := combinedDeps o0.2 rest
          let pr :=
            if (o0 :: rest).any (fun o => !(DependencySet.beqPy o.2 d)) then
              promoteOps (o0 :: rest) s
            else (o0 :: rest, s)
          let newops := pr.1.map (fun o => o.1)
          if (newops.zip xops).all (fun p => p.1.uid == p.2.uid) then
            some ((x, d), pr.2)
          else
            some ((UExpr.opNode pr.2.nextUid k newops, d),
                  { pr.2 with nextUid := pr.2.nextUid + 1 })
  | _ => none

/-- `spatial_derivative` (lines 260-279): dependency set = operand's set
or-ed with runtime-only; reuse `x` when the visited operand is identical
to the original, otherwise reconstruct over the rewritten operand. -/
def spatial_derivative (ctx : SplitterCtx) (x : UExpr) (f ii : UExpr × DependencySet)
    (s : SplitterState) : (UExpr × DependencySet) × SplitterState :=
  let deps : DependencySet := { make_empty_deps ctx with runtime := true }
  let d := f.2.or deps
  match x with
  | .spatialDerivative _ xf _ =>
      if f.1.uid = xf.uid then ((x, d), s)
      else ((UExpr.spatialDerivative s.nextUid f.1 ii.1, d),
            { s with nextUid := s.nextUid + 1 })
  | _ => ((x, d), s)

mutual
/-- `Transformer.visit` dispatch, modelled from the spec (§4.2), since
`ufl.algorithms.transformations.Transformer` is not under src: terminal
handlers and the memoizing `variable` handler receive the node unvisited;
`spatial_derivative` and the fallback `expr` receive the results of
visiting the operands left to right. -/
def visit (ctx : SplitterCtx) : UExpr → SplitterState →
    Option ((UExpr × DependencySet) × SplitterState)
  | .floatValue u v, s => some ((UExpr.floatValue u v, make_empty_deps ctx), s)
  | .intValue u v, s => some ((UExpr.intValue u v, make_empty_deps ctx), s)
  | .zero u, s => some ((UExpr.zero u, make_empty_deps ctx), s)
  | .multiIndex u ii, s => some ((UExpr.multiIndex u ii, make_empty_deps ctx), s)
  | .basisFunction u i, s =>
      match lookupRenumbering ctx.basisfunction_renumbering i with
      | none => none
      | some j =>
          match ctx.basisfunction_deps.get? j with
          | none => none
          | some d => some ((UExpr.basisFunction u i, d), s)
  | .function u i, s =>
      match lookupRenumbering ctx.coefficient_renumbering i with
      | none => none
      | some j =>
          match ctx.function_deps.get? j with
          | none => none
          | some d => some ((UExpr.function u i, d), s)
  | .facetNormal u, s =>
      some ((UExpr.facetNormal u, { make_empty_deps ctx with runtime := true }), s)
  | .variable _ l _, s =>
      match lookupVI s.codestructure.variableinfo l with
      | none => none
      | some vinfo => some ((vinfo.var, vinfo.deps), s)
  | .spatialDerivative u f ii, s =>
      match visit ctx f s with
      | none => none
      | some (fp, s1) =>
          match visit ctx ii s1 with
          | none => none
          | some (iip, s2) =>
              some (spatial_derivative ctx (UExpr.spatialDerivative u f ii) fp iip s2)
  | .opNode u k xops, s =>
      match visitList ctx xops s with
      | none => none
      | some (ops, s1) => expr (UExpr.opNode u k xops) ops s1

/-- Visit a list of operands left to right, threading the state. -/
def visitList (ctx : SplitterCtx) : List UExpr → SplitterState →
    Option (List (UExpr × DependencySet) × SplitterState)
  | [], s => some ([], s)
  | e :: es, s =>
      match visit ctx e s with
      | none => none
      | some (p, s1) =>
          match visitList ctx es s1 with
          | none => none
          | some (ps, s2) => some (p :: ps, s2)
end

/-- `handle` (lines 328-336): reuse the registered VariableInfo of `v` if
present, otherwise split `v._expression` and register the result under
`v`'s original label; non-Variable input fails the assertion. -/
def handle (ctx : SplitterCtx) (v : UExpr) (s : SplitterState) :
    Option (VariableInfo × SplitterState) :=
  match v with
  | .variable _ l e =>
      match lookupVI s.codestructure.variableinfo l with
      | some vinfo => some (vinfo, s)
      | none =>
          match visit ctx e s with
          | none => none
          | some (p, s1) => some (register_expression p.1 p.2 (some l) s1)
  | _ => none

/-- The `for v in variables: vinfo = ds.handle(v)` loop of
`split_by_dependencies`: returns the VariableInfo of the last variable. -/
def handleList (ctx : SplitterCtx) : List UExpr → SplitterState →
    Option (VariableInfo × SplitterState)
  | [], _ => none
  | [v], s => handle ctx v s
  | v :: v2 :: rest, s =>
      match handle ctx v s with
      | none => none
      | some (_, s1) => handleList ctx (v2 :: rest) s1

end DependencySplitter

mutual
/-- All Variable nodes under `e` in post-order (with duplicates). -/
def varsPost : UExpr → List UExpr
  | .variable u l e => varsPost e ++ [UExpr.variable u l e]
  | .spatialDerivative _ f ii => varsPost f ++ varsPost ii
  | .opNode _ _ ops => varsPostList ops
  | _ => []

/-- Post-order Variable nodes of a list of operands. -/
def varsPostList : List UExpr → List UExpr
  | [] => []
  | e :: es => varsPost e ++ varsPostList es
end

/-- Keep the first occurrence of each variable label, skipping any later
node whose label is in the already-handled set (the `handled_vars` set of
the traversal). -/
def dedupVarsGo : List (Option Nat) → List UExpr → List UExpr
  | _, [] => []
  | seen, v :: rest =>
      if v.varLabel ∈ seen then dedupVarsGo seen rest
      else v :: dedupVarsGo (v.varLabel :: seen) rest

/-- Keep the first occurrence of each variable label. -/
def dedupVars (l : List UExpr) : List UExpr := dedupVarsGo [] l

/-- Modelled from the spec: `ufl.algorithms.analysis.extract_variables` is
not under src. Spec §4.2: the entry point "extracts every pre-existing
named-variable node reachable from the input expression (in a
caller-defined traversal order, typically post-order so dependencies are
visited before dependents)". Post-order collection of Variable nodes, the
first occurrence of each label kept. -/
def extract_variables (e : UExpr) : List UExpr := dedupVars (varsPost e)

/-- `split_by_dependencies` (lines 338-386). A fresh `DependencySplitter`
owns a fresh CodeStructure; the allocation counters model the global
counters at call time. The `expression is variables[-1]` assertion is
modelled through the uid convention (a uid identifies one allocated
object, so `is` is uid equality; the label rides along). -/
def split_by_dependencies (ctx : SplitterCtx) (expression : UExpr)
    (nextUid nextLabel : Nat) : Option (VariableInfo × CodeStructure) :=
  let vars := extract_variables expression
  let s0 : SplitterState := ⟨emptyCodeStructure, nextUid, nextLabel⟩
  match expression with
  | .variable u l _ =>
      if (vars.getLast?).map (fun v => (v.uid, v.varLabel)) = some (u, some l) then
        match DependencySplitter.handleList ctx vars s0 with
        | none => none
        | some (vinfo, s1) => some (vinfo, s1.codestructure)
      else none
  | _ =>
      let root := UExpr.variable s0.nextUid s0.nextLabel expression
      let s1 : SplitterState :=
        { s0 with nextUid := s0.nextUid + 1, nextLabel := s0.nextLabel + 1 }
      match DependencySplitter.handleList ctx (vars ++ [root]) s1 with
      | none => none
      | some (vinfo, s2) => some (vinfo, s2.codestructure)

/-- The label under which `register_expression e deps count` files its
variable: the forced count, or the label of `e` when `e` is already a
Variable, or the next fresh label. -/
def registrationLabel (e : UExpr) (count : Option Nat) (s : SplitterState) : Nat :=
  match count, e with
  | none, .variable _ l _ => l
  | none, _ => s.nextLabel
  | some c, _ => c

/-- The labels of all variables held in the stacks, stack by stack in
order. A VariableInfo is identified by its variable's label (spec §3: two
variable wrappers with the same label are the same logical variable), so
distinctness of this list says that no registered variable occupies more
than one stack slot. -/
def stackLabels (cs : CodeStructure) : List Nat :=
  (cs.stacks'.map (fun q => q.2.map (fun vi => vi.var.varLabel.getD 0))).flatten

/-- The label under which `split_by_dependencies` files the root: the
root's own label if the input is already a Variable, otherwise the fresh
label used to wrap it. -/
def rootLabel (expression : UExpr) (nextLabel : Nat) : Nat :=
  match expression with
  | .variable _ l _ => l
  | _ => nextLabel

/-! Concrete fixtures used by the closed witness theorems and the
end-to-end scenario; the expression `1.23 * v` of spec §8 scenario B is
`exprB`, with `v` a basis function renumbered to slot 0 whose declared
dependency set is `dvB`. -/

/-- Dependency set of basis-function slot 0: `basisfunctions=(True,False)`. -/
def dvB : DependencySet := ⟨false, false, [true, false]⟩

/-- Dependency set of basis-function slot 1. -/
def duB : DependencySet := ⟨false, false, [false, true]⟩

/-- Splitter inputs for scenario B: one basis function (id 0) renumbered
to slot 0, two argument slots, no coefficients. -/
def ctxB : SplitterCtx := ⟨[(0, 0)], [], [dvB, duB], []⟩

/-- The literal `1.23`. -/
def litB : UExpr := UExpr.floatValue 1 123

/-- The basis-function reference `v`. -/
def bfB : UExpr := UExpr.basisFunction 2 0

/-- The product `1.23 * v`. -/
def exprB : UExpr := UExpr.opNode 0 0 [litB, bfB]

/-- The all-false dependency set over two argument slots. -/
def emptyB : DependencySet := ⟨false, false, [false, false]⟩

/-- A registered VariableInfo fixture (label 7). -/
def viW : VariableInfo := ⟨UExpr.variable 3 7 (UExpr.zero 4), emptyB⟩

/-- A splitter state with label 7 registered. -/
def sW : SplitterState := ⟨⟨[(7, viW)], [(emptyB, [viW])]⟩, 20, 9⟩

/-- An empty-registry splitter state. -/
def s0C : SplitterState := ⟨⟨[], []⟩, 10, 5⟩

/-- C8 fixture. -/
def a8 : DependencySet := ⟨true, false, [true, false]⟩

/-- C8 fixture. -/
def b8 : DependencySet := ⟨false, true, [false, true]⟩

/-- C8 fixture. -/
def c8 : DependencySet := ⟨false, false, [true, true]⟩

/-- VariableInfo `vi` lies in the stack of `cs` keyed by `d0`. -/
def inStack (cs : CodeStructure) (d0 : DependencySet) (vi : VariableInfo) : Prop :=
  ∃ q ∈ cs.stacks', q.1 = d0 ∧ vi ∈ q.2

/-- What `visit` guarantees of a rewritten operand pair whose expression
is itself a Variable node: the label is registered with exactly this
(variable, dependency set) pair and the VariableInfo lies in the stack
keyed by its dependency set. Trivial for non-Variable operands. -/
def opRegistered (s : SplitterState) (o : UExpr × DependencySet) : Prop :=
  match o.1 with
  | UExpr.variable _ ll _ =>
      ∃ vi, lookupVI s.codestructure.variableinfo ll = some vi ∧
        vi.var = o.1 ∧ vi.deps = o.2 ∧ inStack s.codestructure o.2 vi
  | _ => True

/-- The relation between an input operand of the promotion loop of `expr`
and the operand the parent is rebuilt over: a skip-typed operand passes
through untouched; any other operand is replaced by a named variable that
is registered — under its label, with the operand's own dependency set —
in the resulting state, including membership of the stack keyed by that
dependency set. -/
def promotedTo (s' : SplitterState) (o : UExpr × DependencySet) (n : UExpr) : Prop :=
  if _skiptype o.1 then n = o.1
  else ∃ vi ll, n = vi.var ∧ vi.var.varLabel = some ll ∧ vi.deps = o.2 ∧
    lookupVI s'.codestructure.variableinfo ll = some vi ∧
    inStack s'.codestructure o.2 vi

/-- The Code Structure invariant maintained by every splitter operation:
each registered VariableInfo wraps a Variable node labelled by its own
key; every stack entry's dependency set equals its stack's key; keys are
unique; the labels held in the stacks are a permutation of the registered
keys (each registered variable occupies exactly one stack slot); and every
registered VariableInfo lies in the stack keyed by its dependency set. -/
structure InvCS (cs : CodeStructure) : Prop where
  label_key : ∀ p ∈ cs.variableinfo, ∃ uu ee, p.2.var = UExpr.variable uu p.1 ee
  deps_key : ∀ q ∈ cs.stacks', ∀ vi ∈ q.2, vi.deps = q.1
  keys_nodup : (cs.variableinfo.map (fun p => p.1)).Nodup
  perm : (stackLabels cs).Perm (cs.variableinfo.map (fun p => p.1))
  in_stack : ∀ p ∈ cs.variableinfo, inStack cs p.2.deps p.2

/-! Theorems. -/

/-- C3 (code bug): `__cmp__` line 65 tests `a > 1` where the sibling line
tests `a < b`, so a flag of `self` that exceeds the corresponding flag of
`other` is never detected: a set with `runtime=True` compares equal (via
`__cmp__` = 0, hence Python `==`) to a set with `runtime=False`, although
the runtime flags differ and the two hash keys (the flag tuples hashed by
`__hash__`) differ — breaking both the documented "equal iff all flags
match" rule and the hash/eq contract. -/
theorem C3_cmp_equality_bug :
    DependencySet.beqPy ⟨true, false, []⟩ ⟨false, false, []⟩ = true ∧
    (⟨true, false, []⟩ : DependencySet).runtime ≠
      (⟨false, false, []⟩ : DependencySet).runtime ∧
    DependencySet.hashKey ⟨true, false, []⟩ ≠
      DependencySet.hashKey ⟨false, false, []⟩ := by
  refine ⟨by decide, by decide, by decide⟩

/-- Pairwise or of flag tuples is commutative. -/
theorem or_tuples_comm : ∀ a b : List Bool, or_tuples a b = or_tuples b a
  | [], [] => rfl
  | [], _ :: _ => rfl
  | _ :: _, [] => rfl
  | x :: ta, y :: tb => by
      have ih := or_tuples_comm ta tb
      simp only [or_tuples, List.zipWith_cons_cons] at *
      rw [Bool.or_comm, ih]

/-- Pairwise or of flag tuples is associative. -/
theorem or_tuples_assoc : ∀ a b c : List Bool,
    or_tuples (or_tuples a b) c = or_tuples a (or_tuples b c)
  | [], _, _ => rfl
  | _ :: _, [], _ => rfl
  | _ :: _, _ :: _, [] => rfl
  | x :: ta, y :: tb, z :: tc => by
      have ih := or_tuples_assoc ta tb tc
      simp only [or_tuples, List.zipWith_cons_cons] at *
      rw [Bool.or_assoc, ih]

/-- Pairwise and of flag tuples is commutative. -/
theorem and_tuples_comm : ∀ a b : List Bool, and_tuples a b = and_tuples b a
  | [], [] => rfl
  | [], _ :: _ => rfl
  | _ :: _, [] => rfl
  | x :: ta, y :: tb => by
      have ih := and_tuples_comm ta tb
      simp only [and_tuples, List.zipWith_cons_cons] at *
      rw [Bool.and_comm, ih]

/-- Pairwise and of flag tuples is associative. -/
theorem and_tuples_assoc : ∀ a b c : List Bool,
    and_tuples (and_tuples a b) c = and_tuples a (and_tuples b c)
  | [], _, _ => rfl
  | _ :: _, [], _ => rfl
  | _ :: _, _ :: _, [] => rfl
  | x :: ta, y :: tb, z :: tc => by
      have ih := and_tuples_assoc ta tb tc
      simp only [and_tuples, List.zipWith_cons_cons] at *
      rw [Bool.and_assoc, ih]

/-- The flag-list core of `covers` is reflexive. -/
theorem coversAux_refl : ∀ l : List Bool,
    ((l.zip l).all fun p => !(p.2 && !p.1)) = true
  | [] => rfl
  | x :: t => by
      have ih := coversAux_refl t
      simp only [List.zip_cons_cons, List.all_cons, ih, Bool.and_true]
      cases x <;> rfl

/-- `covers` holds of a flag list over the or against its left argument. -/
theorem coversAux_or_left : ∀ la lb : List Bool,
    (((or_tuples la lb).zip la).all fun p => !(p.2 && !p.1)) = true
  | [], _ => rfl
  | _ :: _, [] => rfl
  | x :: ta, y :: tb => by
      have ih := coversAux_or_left ta tb
      simp only [or_tuples] at ih
      simp only [or_tuples, List.zipWith_cons_cons, List.zip_cons_cons,
        List.all_cons, ih, Bool.and_true]
      cases x <;> cases y <;> rfl

/-- `covers` holds of a flag list over the or against its right argument. -/
theorem coversAux_or_right : ∀ la lb : List Bool,
    (((or_tuples la lb).zip lb).all fun p => !(p.2 && !p.1)) = true
  | [], [] => rfl
  | [], _ :: _ => rfl
  | _ :: _, [] => rfl
  | x :: ta, y :: tb => by
      have ih := coversAux_or_right ta tb
      simp only [or_tuples] at ih
      simp only [or_tuples, List.zipWith_cons_cons, List.zip_cons_cons,
        List.all_cons, ih, Bool.and_true]
      cases x <;> cases y <;> rfl

/-- The flag-list core of `covers` against an all-false replicate. -/
theorem coversAux_replicate_false : ∀ (la : List Bool) (n : Nat),
    ((la.zip (List.replicate n false)).all fun p => !(p.2 && !p.1)) = true
  | [], _ => rfl
  | _ :: _, 0 => rfl
  | x :: ta, Nat.succ n => by
      have ih := coversAux_replicate_false ta n
      simp only [List.replicate, List.zip_cons_cons, List.all_cons, ih,
        Bool.and_true]
      rfl

/-- C8: `__or__` / `__and__` on DependencySets are commutative and
associative (purity is by construction in this embedding: both build a new
value and cannot mutate their operands, matching the source constructing a
fresh `DependencySet`); `covers` is reflexive; every set covers the
all-false set of its own arity; and an or covers both of its arguments. -/
theorem C8_dependency_set_algebra (a b c : DependencySet)
    (hab : a.basisfunctions.length = b.basisfunctions.length)
    (hbc : b.basisfunctions.length = c.basisfunctions.length) :
    a.or b = b.or a ∧
    (a.or b).or c = a.or (b.or c) ∧
    a.and b = b.and a ∧
    (a.and b).and c = a.and (b.and c) ∧
    a.covers a = true ∧
    a.covers ⟨false, false, List.replicate a.basisfunctions.length false⟩ = true ∧
    (a.or b).covers a = true ∧
    (a.or b).covers b = true := by
  have hx : ∀ x y : Bool, (!(x && !(x || y))) = true := by decide
  have hy : ∀ x y : Bool, (!(y && !(x || y))) = true := by decide
  obtain ⟨ar, ac, abf⟩ := a
  obtain ⟨br, bc, bbf⟩ := b
  obtain ⟨cr, cc, cbf⟩ := c
  refine ⟨?_, ?_, ?_, ?_, ?_, ?_, ?_, ?_⟩
  · simp [DependencySet.or, Bool.or_comm, or_tuples_comm abf bbf]
  · simp [DependencySet.or, Bool.or_assoc, or_tuples_assoc abf bbf cbf]
  · simp [DependencySet.and, Bool.and_comm, and_tuples_comm abf bbf]
  · simp [DependencySet.and, Bool.and_assoc, and_tuples_assoc abf bbf cbf]
  · simpa [DependencySet.covers] using coversAux_refl (DependencySet.iter ⟨ar, ac, abf⟩)
  · simp only [DependencySet.covers, DependencySet.iter, List.zip_cons_cons,
      List.all_cons, Bool.false_and, Bool.not_false, Bool.true_and,
      coversAux_replicate_false abf abf.length]
  · simp only [DependencySet.or, DependencySet.covers, DependencySet.iter,
      List.zip_cons_cons, List.all_cons, hx ar br, hx ac bc, Bool.true_and,
      coversAux_or_left abf bbf]
  · simp only [DependencySet.or, DependencySet.covers, DependencySet.iter,
      List.zip_cons_cons, List.all_cons, hy ar br, hy ac bc, Bool.true_and,
      coversAux_or_right abf bbf]

/-- Witness for C8 at concrete dependency sets of arity two. -/
theorem C8_dependency_set_algebra_witness :
    a8.or b8 = b8.or a8 ∧
    (a8.or b8).or c8 = a8.or (b8.or c8) ∧
    a8.and b8 = b8.and a8 ∧
    (a8.and b8).and c8 = a8.and (b8.and c8) ∧
    a8.covers a8 = true ∧
    a8.covers ⟨false, false, List.replicate a8.basisfunctions.length false⟩ = true ∧
    (a8.or b8).covers a8 = true ∧
    (a8.or b8).covers b8 = true :=
  C8_dependency_set_algebra a8 b8 c8 rfl rfl

/-- C9: for every spatial-derivative visit the computed dependency set is
the or of the (rewritten) differentiated operand's dependency set with the
runtime-only set (runtime true, coordinates false, every basis-function
flag false); in particular the coordinates flag equals the operand's and
is not forced on by differentiation. -/
theorem C9_spatial_derivative_deps (ctx : SplitterCtx) (x : UExpr)
    (f ii : UExpr × DependencySet) (s : SplitterState) :
    (DependencySplitter.spatial_derivative ctx x f ii s).1.2 =
      f.2.or ⟨true, false, List.replicate ctx.basisfunction_deps.length false⟩ ∧
    (DependencySplitter.spatial_derivative ctx x f ii s).1.2.coordinates =
      f.2.coordinates := by
  have h1 : (DependencySplitter.spatial_derivative ctx x f ii s).1.2 =
      f.2.or ⟨true, false, List.replicate ctx.basisfunction_deps.length false⟩ := by
    unfold DependencySplitter.spatial_derivative DependencySplitter.make_empty_deps
    cases x <;> dsimp only <;> (try split) <;> rfl
  refine ⟨h1, ?_⟩
  rw [h1]
  simp [DependencySet.or]

/-- C5: visiting a named-variable node returns the cached
(variable, dependency set) pair of its label when the label is registered
in the Code Structure, and fails fatally (the `ufl_assert` of `variable`,
"Haven't handled variable in time") when it is not yet registered. -/
theorem C5_variable_memo (ctx : SplitterCtx) (u l : Nat) (e : UExpr)
    (s : SplitterState) :
    (∀ vinfo, lookupVI s.codestructure.variableinfo l = some vinfo →
        DependencySplitter.visit ctx (UExpr.variable u l e) s =
          some ((vinfo.var, vinfo.deps), s)) ∧
    (lookupVI s.codestructure.variableinfo l = none →
        DependencySplitter.visit ctx (UExpr.variable u l e) s = none) := by
  constructor
  · intro vinfo h
    unfold DependencySplitter.visit
    rw [h]
  · intro h
    unfold DependencySplitter.visit
    rw [h]

/-- Witness for C5: label 7 is registered in `sW`, so visiting a variable
reference with label 7 returns the cached pair of `viW`. -/
theorem C5_variable_memo_witness :
    DependencySplitter.visit ctxB (UExpr.variable 30 7 (UExpr.zero 4)) sW =
      some ((viW.var, viW.deps), sW) :=
  (C5_variable_memo ctxB 30 7 (UExpr.zero 4) sW).1 viW rfl

/-- C6: a `register_expression` call whose label is already present in
`variableinfo` returns the existing VariableInfo and leaves the whole
CodeStructure (`variableinfo` and the stacks) unchanged: the collision is
only logged, never rejected, and neither overwrites nor re-appends the
first registration. -/
theorem C6_register_existing (e : UExpr) (deps : DependencySet)
    (count : Option Nat) (s : SplitterState) (vinfo : VariableInfo)
    (h : lookupVI s.codestructure.variableinfo (registrationLabel e count s) =
      some vinfo) :
    (DependencySplitter.register_expression e deps count s).1 = vinfo ∧
    (DependencySplitter.register_expression e deps count s).2.codestructure =
      s.codestructure := by
  rcases count with _ | c
  · cases e <;>
      (simp only [registrationLabel] at h
       simp only [DependencySplitter.register_expression, UExpr.varLabel, Option.getD]
       rw [h]
       exact ⟨rfl, rfl⟩)
  · simp only [registrationLabel] at h
    simp only [DependencySplitter.register_expression, UExpr.varLabel, Option.getD]
    rw [h]
    exact ⟨rfl, rfl⟩

/-- Witness for C6: registering an expression under the already-present
label 7 of `sW` returns `viW` with the CodeStructure untouched. -/
theorem C6_register_existing_witness :
    (DependencySplitter.register_expression (UExpr.zero 40) dvB (some 7) sW).1 = viW ∧
    (DependencySplitter.register_expression (UExpr.zero 40) dvB (some 7) sW).2.codestructure =
      sW.codestructure :=
  C6_register_existing (UExpr.zero 40) dvB (some 7) sW viW rfl

/-- Pointwise uid agreement makes the reuse check of `expr` succeed. -/
theorem zipAll_uid_of_forall₂ (ops : List (UExpr × DependencySet)) (xops : List UExpr)
    (h : List.Forall₂ (fun (o : UExpr × DependencySet) (e : UExpr) => o.1.uid = e.uid)
      ops xops) :
    (((ops.map (fun o => o.1)).zip xops).all fun p => p.1.uid == p.2.uid) = true := by
  induction h with
  | nil => rfl
  | cons hh _ ih =>
      simp only [List.map_cons, List.zip_cons_cons, List.all_cons, ih,
        Bool.and_true, hh, beq_self_eq_true]

/-- C4: identity preservation. Generic rule: when no operand's dependency
set differs from the combined set and every visited operand is
referentially identical (same uid) to the corresponding original operand,
`expr` returns the original node object and the state is untouched, so no
variable is introduced for the node. Spatial-derivative rule: when the
visited differentiated operand is identical to the original, the original
node object is returned and the state is untouched. -/
theorem C4_identity_preservation :
    (∀ (u k : Nat) (xops : List UExpr) (o0 : UExpr × DependencySet)
       (rest : List (UExpr × DependencySet)) (s : SplitterState),
       (∀ o ∈ o0 :: rest,
          DependencySet.beqPy o.2 (DependencySplitter.combinedDeps o0.2 rest) = true) →
       List.Forall₂ (fun (o : UExpr × DependencySet) (e : UExpr) => o.1.uid = e.uid)
         (o0 :: rest) xops →
       DependencySplitter.expr (UExpr.opNode u k xops) (o0 :: rest) s =
         some ((UExpr.opNode u k xops, DependencySplitter.combinedDeps o0.2 rest), s)) ∧
    (∀ (ctx : SplitterCtx) (u : Nat) (xf xii : UExpr) (f ii : UExpr × DependencySet)
       (s : SplitterState),
       f.1.uid = xf.uid →
       DependencySplitter.spatial_derivative ctx (UExpr.spatialDerivative u xf xii) f ii s =
         ((UExpr.spatialDerivative u xf xii,
           f.2.or ⟨true, false, List.replicate ctx.basisfunction_deps.length false⟩), s)) := by
  constructor
  · intro u k xops o0 rest s hbeq hid
    have hany : ((o0 :: rest).any fun o =>
        !(DependencySet.beqPy o.2 (DependencySplitter.combinedDeps o0.2 rest))) = false := by
      simp only [List.any_eq_false]
      intro o ho
      simp [hbeq o ho]
    have hall := zipAll_uid_of_forall₂ (o0 :: rest) xops hid
    unfold DependencySplitter.expr
    simp only [hany, Bool.false_eq_true, if_false, hall, if_true]
  · intro ctx u xf xii f ii s hf
    unfold DependencySplitter.spatial_derivative DependencySplitter.make_empty_deps
    simp only [hf, if_true]

/-- Witness for C4 at concrete inputs: a product node with one
basis-function operand whose visit returned it unchanged, and a spatial
derivative whose visited operand is unchanged. -/
theorem C4_identity_preservation_witness :
    DependencySplitter.expr (UExpr.opNode 5 1 [bfB]) [(bfB, dvB)] s0C =
      some ((UExpr.opNode 5 1 [bfB], DependencySplitter.combinedDeps dvB []), s0C) ∧
    DependencySplitter.spatial_derivative ctxB
        (UExpr.spatialDerivative 7 (UExpr.zero 6) (UExpr.multiIndex 8 [0]))
        (UExpr.zero 6, emptyB) (UExpr.multiIndex 8 [0], emptyB) s0C =
      ((UExpr.spatialDerivative 7 (UExpr.zero 6) (UExpr.multiIndex 8 [0]),
        emptyB.or ⟨true, false, List.replicate ctxB.basisfunction_deps.length false⟩),
       s0C) :=
  ⟨C4_identity_preservation.1 5 1 [bfB] (bfB, dvB) [] s0C (by decide)
      (List.Forall₂.cons rfl List.Forall₂.nil),
   C4_identity_preservation.2 ctxB 7 (UExpr.zero 6) (UExpr.multiIndex 8 [0])
      (UExpr.zero 6, emptyB) (UExpr.multiIndex 8 [0], emptyB) s0C rfl⟩

/-- C2 (counterexample): splitting `1.23 * v` (`v` a slot-0 basis function
with declared set `dvB`) does not leave the Code Structure with only the
product's top-level registration: the literal's all-false set differs from
the combined set, so the promotion loop fires and registers `v` itself as
an extra variable — two variables end up registered, not one. -/
theorem C2_counterexample :
    ¬ ((split_by_dependencies ctxB exprB 10 5).map
        (fun r => r.2.variableinfo.length) = some 1) := by
  decide

/-- C2 (amended): splitting `1.23 * v` yields a result dependency set
equal to `v`'s declared set, and exactly one extra variable beyond the
product's own top-level registration — the promoted operand `v` itself
(label 6, wrapping the node with uid 2) — with both registrations filed,
with dependency set `dvB`, in the single stack keyed by `dvB`; the
skip-typed literal operand gets no variable. -/
theorem C2_scenario_b :
    (split_by_dependencies ctxB exprB 10 5).map (fun r => r.1.deps) = some dvB ∧
    (split_by_dependencies ctxB exprB 10 5).map
      (fun r => r.2.variableinfo.length) = some 2 ∧
    (split_by_dependencies ctxB exprB 10 5).map
      (fun r => r.2.stacks'.map (fun q => (q.1, q.2.map (fun vi => vi.var.varLabel)))) =
      some [(dvB, [some 6, some 5])] ∧
    (split_by_dependencies ctxB exprB 10 5).map
      (fun r => r.2.variableinfo.map (fun p => (p.1, p.2.deps))) =
      some [(6, dvB), (5, dvB)] ∧
    (split_by_dependencies ctxB exprB 10 5).map
      (fun r => r.2.variableinfo.map (fun p => p.2.var.operandsList.map UExpr.uid)) =
      some [[2], [12]] := by
  refine ⟨by decide, by decide, by decide, by decide, by decide⟩

/-- A key at least as large as every key of the registry is absent. -/
theorem lookupVI_none_of_lt (l : List (Nat × VariableInfo)) (n : Nat)
    (h : ∀ p ∈ l, p.1 < n) : lookupVI l n = none := by
  induction l with
  | nil => rfl
  | cons p rest ih =>
      have hp := h p (List.mem_cons_self p rest)
      simp only [lookupVI]
      rw [if_neg (by omega)]
      exact ih (fun q hq => h q (List.mem_cons_of_mem p hq))

/-- Appending entries preserves successful lookups. -/
theorem lookupVI_append_some (l m : List (Nat × VariableInfo)) (c : Nat)
    (vi : VariableInfo) (h : lookupVI l c = some vi) :
    lookupVI (l ++ m) c = some vi := by
  induction l with
  | nil => simp [lookupVI] at h
  | cons p rest ih =>
      simp only [lookupVI, List.cons_append] at h ⊢
      by_cases hp : p.1 = c
      · rwa [if_pos hp] at h ⊢
      · rw [if_neg hp] at h ⊢
        exact ih h

/-- Looking up the key of a freshly appended entry. -/
theorem lookupVI_append_new (l : List (Nat × VariableInfo)) (c : Nat)
    (vi : VariableInfo) (h : lookupVI l c = none) :
    lookupVI (l ++ [(c, vi)]) c = some vi := by
  induction l with
  | nil => simp [lookupVI]
  | cons p rest ih =>
      simp only [lookupVI, List.cons_append] at h ⊢
      by_cases hp : p.1 = c
      · rw [if_pos hp] at h
        cases h
      · rw [if_neg hp] at h ⊢
        exact ih h

/-- The looked-up entry is a member of the registry. -/
theorem lookupVI_mem (l : List (Nat × VariableInfo)) (c : Nat) (vi : VariableInfo)
    (h : lookupVI l c = some vi) : (c, vi) ∈ l := by
  induction l with
  | nil => simp [lookupVI] at h
  | cons p rest ih =>
      obtain ⟨pc, pv⟩ := p
      simp only [lookupVI] at h
      by_cases hp : pc = c
      · subst hp
        rw [if_pos rfl] at h
        injection h with h
        subst h
        exact List.mem_cons_self _ _
      · rw [if_neg hp] at h
        exact List.mem_cons_of_mem _ (ih h)

/-- After a `stackAppend`, the appended VariableInfo lies in the stack
keyed by its dependency set. -/
theorem stackAppend_mem_new (st : List (DependencySet × List VariableInfo))
    (d : DependencySet) (vi : VariableInfo) :
    ∃ q ∈ stackAppend st d vi, q.1 = d ∧ vi ∈ q.2 := by
  induction st with
  | nil => exact ⟨(d, [vi]), by simp [stackAppend], rfl, by simp⟩
  | cons p rest ih =>
      obtain ⟨k, stk⟩ := p
      by_cases hk : k = d
      · exact ⟨(k, stk ++ [vi]), by simp [stackAppend, hk], hk, by simp⟩
      · obtain ⟨q, hq, hq1, hq2⟩ := ih
        exact ⟨q, by simp [stackAppend, hk, hq], hq1, hq2⟩

/-- `stackAppend` preserves existing stack membership. -/
theorem stackAppend_mem_mono (st : List (DependencySet × List VariableInfo))
    (d d0 : DependencySet) (vi vnew : VariableInfo)
    (h : ∃ q ∈ st, q.1 = d0 ∧ vi ∈ q.2) :
    ∃ q ∈ stackAppend st d vnew, q.1 = d0 ∧ vi ∈ q.2 := by
  induction st with
  | nil => simp at h
  | cons p rest ih =>
      obtain ⟨pk, pst⟩ := p
      obtain ⟨q, hq, hq1, hq2⟩ := h
      rcases List.mem_cons.mp hq with hq | hq
      · subst hq
        by_cases hk : pk = d
        · exact ⟨(pk, pst ++ [vnew]), by simp [stackAppend, hk], hq1,
            List.mem_append_left _ hq2⟩
        · exact ⟨(pk, pst), by simp [stackAppend, hk], hq1, hq2⟩
      · by_cases hk : pk = d
        · exact ⟨q, by simp [stackAppend, hk, hq], hq1, hq2⟩
        · obtain ⟨q', hq', h1, h2⟩ := ih ⟨q, hq, hq1, hq2⟩
          exact ⟨q', by simp [stackAppend, hk, hq'], h1, h2⟩

/-- `register_expression` without a forced count, on an operand that is a
Variable with a registered label, returns the existing info and leaves the
state untouched. -/
theorem register_none_variable (u l : Nat) (ex : UExpr) (deps : DependencySet)
    (s : SplitterState) (vi : VariableInfo)
    (h : lookupVI s.codestructure.variableinfo l = some vi) :
    DependencySplitter.register_expression (UExpr.variable u l ex) deps none s =
      (vi, s) := by
  simp only [DependencySplitter.register_expression, UExpr.varLabel, Option.getD]
  rw [h]

/-- `register_expression` without a forced count, on a non-Variable
operand, wraps it in a fresh variable and inserts the registration. -/
theorem register_none_fresh (e : UExpr) (deps : DependencySet) (s : SplitterState)
    (he : e.varLabel = none)
    (hlk : lookupVI s.codestructure.variableinfo s.nextLabel = none) :
    DependencySplitter.register_expression e deps none s =
      (⟨UExpr.variable s.nextUid s.nextLabel e, deps⟩,
       ⟨⟨s.codestructure.variableinfo ++
           [(s.nextLabel, ⟨UExpr.variable s.nextUid s.nextLabel e, deps⟩)],
         stackAppend s.codestructure.stacks' deps
           ⟨UExpr.variable s.nextUid s.nextLabel e, deps⟩⟩,
        s.nextUid + 1, s.nextLabel + 1⟩) := by
  cases e <;> simp only [UExpr.varLabel] at he <;>
    (try cases he) <;>
    (simp only [DependencySplitter.register_expression, UExpr.varLabel, Option.getD]
     rw [hlk])

/-- One promotion step: `register_expression` with no forced count keeps
the counters monotone, keeps registered labels below the label counter,
preserves existing registrations and stack memberships, and returns a
VariableInfo that is registered under its variable's label with the given
dependency set and filed in the stack keyed by it; the returned variable
is either freshly allocated (uid at least the old counter) or the operand
itself. -/
theorem register_none_step (o : UExpr × DependencySet) (s : SplitterState)
    (hlbl : ∀ p ∈ s.codestructure.variableinfo, p.1 < s.nextLabel)
    (hreg : opRegistered s o) :
    s.nextUid ≤ (DependencySplitter.register_expression o.1 o.2 none s).2.nextUid ∧
    s.nextLabel ≤ (DependencySplitter.register_expression o.1 o.2 none s).2.nextLabel ∧
    (∀ p ∈ (DependencySplitter.register_expression o.1 o.2 none s).2.codestructure.variableinfo,
       p.1 < (DependencySplitter.register_expression o.1 o.2 none s).2.nextLabel) ∧
    (∀ ll vi, lookupVI s.codestructure.variableinfo ll = some vi →
       lookupVI (DependencySplitter.register_expression o.1 o.2 none s).2.codestructure.variableinfo ll = some vi) ∧
    (∀ d0 vi, inStack s.codestructure d0 vi →
       inStack (DependencySplitter.register_expression o.1 o.2 none s).2.codestructure d0 vi) ∧
    (∃ ll, (DependencySplitter.register_expression o.1 o.2 none s).1.var.varLabel = some ll ∧
       lookupVI (DependencySplitter.register_expression o.1 o.2 none s).2.codestructure.variableinfo ll =
         some (DependencySplitter.register_expression o.1 o.2 none s).1) ∧
    (DependencySplitter.register_expression o.1 o.2 none s).1.deps = o.2 ∧
    inStack (DependencySplitter.register_expression o.1 o.2 none s).2.codestructure o.2
      (DependencySplitter.register_expression o.1 o.2 none s).1 ∧
    (s.nextUid ≤ (DependencySplitter.register_expression o.1 o.2 none s).1.var.uid ∨
       (DependencySplitter.register_expression o.1 o.2 none s).1.var = o.1) := by
  by_cases hv : ∃ u l ex, o.1 = UExpr.variable u l ex
  · obtain ⟨u, l, ex, ho⟩ := hv
    unfold opRegistered at hreg
    rw [ho] at hreg ⊢
    obtain ⟨vi, hlook, hvar, hdeps, hst⟩ := hreg
    rw [register_none_variable u l ex o.2 s vi hlook]
    refine ⟨Nat.le_refl _, Nat.le_refl _, hlbl, fun ll vi' h => h, fun d0 vi' h => h,
      ⟨l, ?_, ?_⟩, hdeps, ?_, Or.inr hvar⟩
    · rw [hvar]
      rfl
    · exact hlook
    · exact hst
  · have he : o.1.varLabel = none := by
      cases ho : o.1 <;> simp only [UExpr.varLabel]
      exact absurd ⟨_, _, _, ho⟩ hv
    have hlk : lookupVI s.codestructure.variableinfo s.nextLabel = none :=
      lookupVI_none_of_lt _ _ hlbl
    rw [register_none_fresh o.1 o.2 s he hlk]
    refine ⟨Nat.le_succ _, Nat.le_succ _, ?_, ?_, ?_, ⟨s.nextLabel, rfl, ?_⟩, rfl, ?_, Or.inl (Nat.le_refl _)⟩
    · intro p hp
      rcases List.mem_append.mp hp with hp | hp
      · exact Nat.lt_succ_of_lt (hlbl p hp)
      · simp only [List.mem_singleton] at hp
        subst hp
        exact Nat.lt_succ_self _
    · intro ll vi h
      exact lookupVI_append_some _ _ _ _ h
    · intro d0 vi h
      exact stackAppend_mem_mono _ _ _ _ _ h
    · exact lookupVI_append_new _ _ _ hlk
    · exact stackAppend_mem_new _ _ _

/-- `opRegistered` is preserved by any state transformation that preserves
registrations and stack memberships. -/
theorem opRegistered_mono (s s' : SplitterState) (o : UExpr × DependencySet)
    (hlook : ∀ ll vi, lookupVI s.codestructure.variableinfo ll = some vi →
       lookupVI s'.codestructure.variableinfo ll = some vi)
    (hstk : ∀ d0 vi, inStack s.codestructure d0 vi → inStack s'.codestructure d0 vi)
    (h : opRegistered s o) : opRegistered s' o := by
  unfold opRegistered at h ⊢
  cases ho : o.1 <;> rw [ho] at h <;> try exact h
  obtain ⟨vi, h1, h2, h3, h4⟩ := h
  exact ⟨vi, hlook _ _ h1, h2, h3, hstk _ _ h4⟩

/-- The promotion loop of `expr`: counters are monotone, registered labels
stay below the label counter, existing registrations and stack memberships
survive, and every operand relates to its output by `promotedTo` in the
final state — a non-skip operand becoming either a fresh variable (uid at
least the starting counter) or the already-registered variable operand
itself. -/
theorem promoteOps_spec : ∀ (ops : List (UExpr × DependencySet)) (s : SplitterState),
    (∀ p ∈ s.codestructure.variableinfo, p.1 < s.nextLabel) →
    (∀ o ∈ ops, opRegistered s o) →
    s.nextUid ≤ (DependencySplitter.promoteOps ops s).2.nextUid ∧
    s.nextLabel ≤ (DependencySplitter.promoteOps ops s).2.nextLabel ∧
    (∀ p ∈ (DependencySplitter.promoteOps ops s).2.codestructure.variableinfo,
       p.1 < (DependencySplitter.promoteOps ops s).2.nextLabel) ∧
    (∀ ll vi, lookupVI s.codestructure.variableinfo ll = some vi →
       lookupVI (DependencySplitter.promoteOps ops s).2.codestructure.variableinfo ll = some vi) ∧
    (∀ d0 vi, inStack s.codestructure d0 vi →
       inStack (DependencySplitter.promoteOps ops s).2.codestructure d0 vi) ∧
    List.Forall₂
      (fun o n => promotedTo (DependencySplitter.promoteOps ops s).2 o n ∧
        (_skiptype o.1 = false → s.nextUid ≤ n.uid ∨ n = o.1))
      ops ((DependencySplitter.promoteOps ops s).1.map (fun o => o.1))
  | [], s, hlbl, _ => by
      simp only [DependencySplitter.promoteOps, List.map_nil]
      exact ⟨Nat.le_refl _, Nat.le_refl _, hlbl, fun _ _ h => h, fun _ _ h => h,
        List.Forall₂.nil⟩
  | o :: rest, s, hlbl, hreg => by
      by_cases hsk : _skiptype o.1 = true
      · obtain ⟨ihu, ihl, ihlbl, ihlook, ihstk, ihf⟩ :=
          promoteOps_spec rest s hlbl (fun o' h' => hreg o' (List.mem_cons_of_mem _ h'))
        simp only [DependencySplitter.promoteOps, hsk, if_true, List.map_cons]
        refine ⟨ihu, ihl, ihlbl, ihlook, ihstk, List.Forall₂.cons ⟨?_, ?_⟩ ihf⟩
        · unfold promotedTo
          rw [if_pos hsk]
        · intro hc
          rw [hsk] at hc
          cases hc
      · have hsk' : _skiptype o.1 = false := by
          revert hsk
          cases _skiptype o.1 <;> simp
        obtain ⟨ru, rl, rlbl, rlook, rstk, ⟨ll, hll, hlkll⟩, rdeps, rstack, rdisj⟩ :=
          register_none_step o s hlbl (hreg o (List.mem_cons_self _ _))
        obtain ⟨ihu, ihl, ihlbl, ihlook, ihstk, ihf⟩ :=
          promoteOps_spec rest (DependencySplitter.register_expression o.1 o.2 none s).2 rlbl
            (fun o' h' => opRegistered_mono s _ o' rlook rstk
              (hreg o' (List.mem_cons_of_mem _ h')))
        simp only [DependencySplitter.promoteOps, hsk', Bool.false_eq_true, if_false,
          List.map_cons]
        refine ⟨ru.trans ihu, rl.trans ihl, ihlbl,
          fun ll' vi' h' => ihlook ll' vi' (rlook ll' vi' h'),
          fun d0 vi' h' => ihstk d0 vi' (rstk d0 vi' h'),
          List.Forall₂.cons ⟨?_, ?_⟩ (ihf.imp (fun a b hab =>
            ⟨hab.1, fun hc => (hab.2 hc).imp_left (fun hle => ru.trans hle)⟩))⟩
        · unfold promotedTo
          rw [if_neg (by rw [hsk']; simp)]
          exact ⟨(DependencySplitter.register_expression o.1 o.2 none s).1, ll, rfl, hll,
            rdeps, ihlook ll _ hlkll, ihstk o.2 _ rstack⟩
        · intro _
          rcases rdisj with h | h
          · exact Or.inl h
          · exact Or.inr h

/-- On a generic internal node with at least one operand, `expr` always
succeeds and the computed dependency set is the combined (or-folded) set
of the operands' dependency sets. -/
theorem expr_deps (u k : Nat) (xops : List UExpr) (o0 : UExpr × DependencySet)
    (rest : List (UExpr × DependencySet)) (s : SplitterState) :
    ∃ e' s', DependencySplitter.expr (UExpr.opNode u k xops) (o0 :: rest) s =
      some ((e', DependencySplitter.combinedDeps o0.2 rest), s') := by
  unfold DependencySplitter.expr
  dsimp only
  split <;> split <;> exact ⟨_, _, rfl⟩

/-- The shape of `expr`'s result when the promotion loop fires and some
resulting operand is not identical to the original one: the node is
reconstructed over the promoted operands with a fresh uid. -/
theorem expr_promote_eq (u k : Nat) (xops : List UExpr) (o0 : UExpr × DependencySet)
    (rest : List (UExpr × DependencySet)) (s : SplitterState)
    (hany : ((o0 :: rest).any fun o =>
        !(DependencySet.beqPy o.2 (DependencySplitter.combinedDeps o0.2 rest))) = true)
    (hall : ((((DependencySplitter.promoteOps (o0 :: rest) s).1.map (fun o => o.1)).zip
        xops).all fun p => p.1.uid == p.2.uid) = false) :
    DependencySplitter.expr (UExpr.opNode u k xops) (o0 :: rest) s =
      some ((UExpr.opNode (DependencySplitter.promoteOps (o0 :: rest) s).2.nextUid k
               ((DependencySplitter.promoteOps (o0 :: rest) s).1.map (fun o => o.1)),
             DependencySplitter.combinedDeps o0.2 rest),
            { (DependencySplitter.promoteOps (o0 :: rest) s).2 with
               nextUid := (DependencySplitter.promoteOps (o0 :: rest) s).2.nextUid + 1 }) := by
  unfold DependencySplitter.expr
  simp only [hany, if_true, hall, Bool.false_eq_true, if_false]

/-- C1: the generic internal-node rule. First: the computed dependency set
is always the or-fold (`combinedDeps`) of the operands' dependency sets.
Second: when some operand's dependency set differs from that combination
(under the source's `!=`) and some operand is non-skip-typed, then — for
operand pairs as produced by a visit (registered-variable operands are
cached consistently and are never the original child object, and all
original children predate the allocation counter) — every non-skip
operand is promoted to a named variable registered under its label with
that operand's own dependency set and stacked under it, skip-typed
operands pass through untouched, and the parent node is reconstructed over
the resulting operands while its own dependency set remains the
combination. -/
theorem C1_generic_rule (u k : Nat) (xops : List UExpr) (o0 : UExpr × DependencySet)
    (rest : List (UExpr × DependencySet)) (s : SplitterState) :
    (∃ e' s', DependencySplitter.expr (UExpr.opNode u k xops) (o0 :: rest) s =
        some ((e', DependencySplitter.combinedDeps o0.2 rest), s')) ∧
    ((∃ o ∈ o0 :: rest,
        DependencySet.beqPy o.2 (DependencySplitter.combinedDeps o0.2 rest) = false) →
     (∃ o ∈ o0 :: rest, _skiptype o.1 = false) →
     (∀ e ∈ xops, e.uid < s.nextUid) →
     (∀ p ∈ s.codestructure.variableinfo, p.1 < s.nextLabel) →
     (∀ o ∈ o0 :: rest, opRegistered s o) →
     List.Forall₂ (fun (o : UExpr × DependencySet) (orig : UExpr) =>
        o.1.varLabel.isSome = true → o.1.uid ≠ orig.uid) (o0 :: rest) xops →
     ∃ un newops s',
       DependencySplitter.expr (UExpr.opNode u k xops) (o0 :: rest) s =
         some ((UExpr.opNode un k newops,
                DependencySplitter.combinedDeps o0.2 rest), s') ∧
       List.Forall₂ (promotedTo s') (o0 :: rest) newops) := by
  constructor
  · exact expr_deps u k xops o0 rest s
  · intro hdiff hns hmax hlbl hreg hneq
    obtain ⟨od, hod, hbd⟩ := hdiff
    have hany : ((o0 :: rest).any fun o =>
        !(DependencySet.beqPy o.2 (DependencySplitter.combinedDeps o0.2 rest))) = true := by
      refine List.any_eq_true.mpr ⟨od, hod, ?_⟩
      simp [hbd]
    obtain ⟨hu, hl, _, hlook, hstk, hf2⟩ := promoteOps_spec (o0 :: rest) s hlbl hreg
    obtain ⟨o, ho, hskipo⟩ := hns
    obtain ⟨⟨j, hj⟩, hoe⟩ := List.mem_iff_get.mp ho
    have hlen_no : (o0 :: rest).length =
        ((DependencySplitter.promoteOps (o0 :: rest) s).1.map (fun o => o.1)).length :=
      hf2.length_eq
    have hlen_x : (o0 :: rest).length = xops.length := hneq.length_eq
    have hjn : j < ((DependencySplitter.promoteOps (o0 :: rest) s).1.map
        (fun o => o.1)).length := by omega
    have hjx : j < xops.length := by omega
    have hrel := (List.forall₂_iff_get.mp hf2).2 j hj hjn
    have hnej := (List.forall₂_iff_get.mp hneq).2 j hj hjx
    have hskip_j : _skiptype ((o0 :: rest).get ⟨j, hj⟩).1 = false := by
      rw [hoe]
      exact hskipo
    have hne_j : (((DependencySplitter.promoteOps (o0 :: rest) s).1.map
        (fun (o : UExpr × DependencySet) => o.1)).get ⟨j, hjn⟩).uid ≠
        (xops.get ⟨j, hjx⟩).uid := by
      rcases hrel.2 hskip_j with hle | heqj
      · have hxlt := hmax _ (List.get_mem xops j hjx)
        omega
      · have hpj := hrel.1
        unfold promotedTo at hpj
        rw [if_neg (by rw [hskip_j]; simp)] at hpj
        obtain ⟨vi, ll, hn, hvl, _, _, _⟩ := hpj
        have hsome : ((o0 :: rest).get ⟨j, hj⟩).1.varLabel.isSome = true := by
          rw [← heqj, hn, hvl]
          rfl
        rw [heqj]
        exact hnej hsome
    have hallzip : ((((DependencySplitter.promoteOps (o0 :: rest) s).1.map
        (fun o => o.1)).zip xops).all fun p => p.1.uid == p.2.uid) = false := by
      cases hz : ((((DependencySplitter.promoteOps (o0 :: rest) s).1.map
          (fun o => o.1)).zip xops).all fun p => p.1.uid == p.2.uid) with
      | false => rfl
      | true =>
          exfalso
          have hjz : j < (((DependencySplitter.promoteOps (o0 :: rest) s).1.map
              (fun o => o.1)).zip xops).length := by
            rw [List.length_zip]
            omega
          have hmem := List.get_mem (((DependencySplitter.promoteOps (o0 :: rest) s).1.map
              (fun o => o.1)).zip xops) j hjz
          have hp := List.all_eq_true.mp hz _ hmem
          rw [List.get_zip] at hp
          dsimp only at hp
          exact hne_j (beq_iff_eq.mp hp)
    exact ⟨(DependencySplitter.promoteOps (o0 :: rest) s).2.nextUid,
      (DependencySplitter.promoteOps (o0 :: rest) s).1.map (fun o => o.1),
      { (DependencySplitter.promoteOps (o0 :: rest) s).2 with
        nextUid := (DependencySplitter.promoteOps (o0 :: rest) s).2.nextUid + 1 },
      expr_promote_eq u k xops o0 rest s hany hallzip,
      hf2.imp (fun a b hab => hab.1)⟩

/-- Witness for C1: the product `1.23 * v` with visited operand pairs as
produced by the splitter, in an empty registry: the dependency set is the
combination, the promotion fires, and the node is rebuilt over a promoted
variable for `v` with the literal untouched. -/
theorem C1_generic_rule_witness :
    (∃ e' s', DependencySplitter.expr (UExpr.opNode 0 0 [litB, bfB])
        [(litB, emptyB), (bfB, dvB)] s0C =
        some ((e', DependencySplitter.combinedDeps emptyB [(bfB, dvB)]), s')) ∧
    (∃ un newops s',
       DependencySplitter.expr (UExpr.opNode 0 0 [litB, bfB])
           [(litB, emptyB), (bfB, dvB)] s0C =
         some ((UExpr.opNode un 0 newops,
                DependencySplitter.combinedDeps emptyB [(bfB, dvB)]), s') ∧
       List.Forall₂ (promotedTo s') [(litB, emptyB), (bfB, dvB)] newops) :=
  ⟨(C1_generic_rule 0 0 [litB, bfB] (litB, emptyB) [(bfB, dvB)] s0C).1,
   (C1_generic_rule 0 0 [litB, bfB] (litB, emptyB) [(bfB, dvB)] s0C).2
     (by decide) (by decide) (by decide) (by decide)
     (by
       intro o ho
       fin_cases ho <;> trivial)
     (List.Forall₂.cons (fun h => absurd h (by decide))
       (List.Forall₂.cons (fun h => absurd h (by decide)) List.Forall₂.nil))⟩

/-- An absent key is not among the registered keys. -/
theorem lookupVI_not_mem (l : List (Nat × VariableInfo)) (c : Nat)
    (h : lookupVI l c = none) : c ∉ l.map (fun p => p.1) := by
  induction l with
  | nil => simp
  | cons p rest ih =>
      simp only [lookupVI] at h
      by_cases hp : p.1 = c
      · rw [if_pos hp] at h
        cases h
      · rw [if_neg hp] at h
        simp only [List.map_cons, List.mem_cons]
        rintro (hc | hc)
        · exact hp hc.symm
        · exact ih h hc

/-- `stackAppend` adds exactly one occupied slot: the flattened label list
of the result is a permutation of the appended label consed on the old
flattened label list. -/
theorem stackAppend_labels_perm (st : List (DependencySet × List VariableInfo))
    (d : DependencySet) (vi : VariableInfo) :
    ((stackAppend st d vi).map
        (fun q => q.2.map (fun v => v.var.varLabel.getD 0))).flatten.Perm
      (vi.var.varLabel.getD 0 ::
        (st.map (fun q => q.2.map (fun v => v.var.varLabel.getD 0))).flatten) := by
  induction st with
  | nil => simp [stackAppend]
  | cons p rest ih =>
      obtain ⟨k, stk⟩ := p
      by_cases hk : k = d
      · subst hk
        simp only [stackAppend, if_true]
        simp only [List.map_cons, List.flatten_cons, List.map_append, List.map_nil]
        have heq : (stk.map (fun v => v.var.varLabel.getD 0) ++ [vi.var.varLabel.getD 0]) ++
              (rest.map (fun q => q.2.map (fun v => v.var.varLabel.getD 0))).flatten =
            stk.map (fun v => v.var.varLabel.getD 0) ++
              (vi.var.varLabel.getD 0 ::
                (rest.map (fun q => q.2.map (fun v => v.var.varLabel.getD 0))).flatten) := by
          simp
        rw [heq]
        exact List.perm_middle
      · simp only [stackAppend]
        rw [if_neg hk]
        simp only [List.map_cons, List.flatten_cons]
        exact (List.Perm.append_left _ ih).trans List.perm_middle

/-- `stackAppend` keeps every stack's entries keyed by their own
dependency set when the appended info matches its key. -/
theorem stackAppend_deps_key (st : List (DependencySet × List VariableInfo))
    (d : DependencySet) (vi : VariableInfo) (hvi : vi.deps = d)
    (h : ∀ q ∈ st, ∀ v ∈ q.2, v.deps = q.1) :
    ∀ q ∈ stackAppend st d vi, ∀ v ∈ q.2, v.deps = q.1 := by
  induction st with
  | nil =>
      intro q hq v hv
      simp only [stackAppend, List.mem_singleton] at hq
      subst hq
      simp only [List.mem_singleton] at hv
      subst hv
      exact hvi
  | cons p rest ih =>
      obtain ⟨k, stk⟩ := p
      intro q hq v hv
      by_cases hk : k = d
      · subst hk
        simp only [stackAppend, if_true, List.mem_cons] at hq
        rcases hq with hq | hq
        · subst hq
          rcases List.mem_append.mp hv with hv | hv
          · exact h (k, stk) (List.mem_cons_self _ _) v hv
          · simp only [List.mem_singleton] at hv
            subst hv
            exact hvi
        · exact h q (List.mem_cons_of_mem _ hq) v hv
      · simp only [stackAppend] at hq
        rw [if_neg hk] at hq
        rcases List.mem_cons.mp hq with hq | hq
        · subst hq
          exact h (k, stk) (List.mem_cons_self _ _) v hv
        · exact ih (fun q' hq' => h q' (List.mem_cons_of_mem _ hq')) q hq v hv

/-- The empty Code Structure satisfies the invariant. -/
theorem emptyInvCS : InvCS emptyCodeStructure := by
  refine ⟨?_, ?_, ?_, ?_, ?_⟩ <;> simp [emptyCodeStructure, stackLabels]

/-- Inserting a fresh registration — a variable labelled by an absent key,
recorded under that key and stacked under its dependency set — preserves
the invariant. -/
theorem insert_InvCS (cs : CodeStructure) (cnt : Nat) (v : UExpr)
    (deps : DependencySet) (hv : ∃ uu ee, v = UExpr.variable uu cnt ee)
    (hlk : lookupVI cs.variableinfo cnt = none) (h : InvCS cs) :
    InvCS ⟨cs.variableinfo ++ [(cnt, ⟨v, deps⟩)],
           stackAppend cs.stacks' deps ⟨v, deps⟩⟩ := by
  obtain ⟨uu, ee, hvv⟩ := hv
  have hnotmem := lookupVI_not_mem cs.variableinfo cnt hlk
  have hlabel : (⟨v, deps⟩ : VariableInfo).var.varLabel.getD 0 = cnt := by
    rw [hvv]
    rfl
  refine ⟨?_, ?_, ?_, ?_, ?_⟩
  · intro p hp
    rcases List.mem_append.mp hp with hp | hp
    · exact h.label_key p hp
    · simp only [List.mem_singleton] at hp
      subst hp
      exact ⟨uu, ee, hvv⟩
  · exact stackAppend_deps_key cs.stacks' deps ⟨v, deps⟩ rfl h.deps_key
  · rw [List.map_append]
    exact (List.perm_append_singleton _ _).symm.nodup
      (List.nodup_cons.mpr ⟨hnotmem, h.keys_nodup⟩)
  · unfold stackLabels
    refine (stackAppend_labels_perm cs.stacks' deps ⟨v, deps⟩).trans ?_
    rw [hlabel, List.map_append]
    refine (List.Perm.cons cnt h.perm).trans ?_
    exact (List.perm_append_singleton _ _).symm
  · intro p hp
    rcases List.mem_append.mp hp with hp | hp
    · exact stackAppend_mem_mono _ _ _ _ _ (h.in_stack p hp)
    · simp only [List.mem_singleton] at hp
      subst hp
      exact stackAppend_mem_new _ _ _

/-- `register_expression` preserves the Code Structure invariant. -/
theorem register_InvCS (e : UExpr) (deps : DependencySet) (count : Option Nat)
    (s : SplitterState) (h : InvCS s.codestructure) :
    InvCS (DependencySplitter.register_expression e deps count s).2.codestructure := by
  unfold DependencySplitter.register_expression
  rcases count with _ | c
  · cases e <;> dsimp only [UExpr.varLabel, Option.getD] <;>
      (split
       · exact h
       · next hlk => exact insert_InvCS _ _ _ _ ⟨_, _, rfl⟩ hlk h)
  · cases e <;> dsimp only [UExpr.varLabel, Option.getD] <;>
      (split
       · exact h
       · next hlk => exact insert_InvCS _ _ _ _ ⟨_, _, rfl⟩ hlk h)

/-- The promotion loop preserves the Code Structure invariant. -/
theorem promoteOps_InvCS : ∀ (ops : List (UExpr × DependencySet)) (s : SplitterState),
    InvCS s.codestructure →
    InvCS (DependencySplitter.promoteOps ops s).2.codestructure
  | [], _, h => h
  | o :: rest, s, h => by
      by_cases hsk : _skiptype o.1 = true
      · simp only [DependencySplitter.promoteOps, hsk, if_true]
        exact promoteOps_InvCS rest s h
      · have hsk' : _skiptype o.1 = false := by
          revert hsk
          cases _skiptype o.1 <;> simp
        simp only [DependencySplitter.promoteOps, hsk', Bool.false_eq_true, if_false]
        exact promoteOps_InvCS rest _ (register_InvCS o.1 o.2 none s h)

/-- The generic rule preserves the Code Structure invariant. -/
theorem expr_InvCS (x : UExpr) (ops : List (UExpr × DependencySet))
    (s : SplitterState) (r : (UExpr × DependencySet) × SplitterState)
    (hr : DependencySplitter.expr x ops s = some r) (h : InvCS s.codestructure) :
    InvCS r.2.codestructure := by
  unfold DependencySplitter.expr at hr
  rcases x with _ | _ | _ | _ | _ | _ | _ | _ | _ | u
  case opNode k xops =>
    rcases ops with _ | ⟨o0, rest⟩
    · cases hr
    · dsimp only at hr
      by_cases hp : ((o0 :: rest).any fun o =>
          !(DependencySet.beqPy o.2 (DependencySplitter.combinedDeps o0.2 rest))) = true
      · rw [if_pos hp] at hr
        split at hr <;> (cases hr; exact promoteOps_InvCS (o0 :: rest) s h)
      · rw [if_neg hp] at hr
        split at hr <;> (cases hr; exact h)
  all_goals cases hr

/-- The spatial-derivative rule never touches the Code Structure. -/
theorem spatial_derivative_cs (ctx : SplitterCtx) (x : UExpr)
    (f ii : UExpr × DependencySet) (s : SplitterState) :
    (DependencySplitter.spatial_derivative ctx x f ii s).2.codestructure =
      s.codestructure := by
  unfold DependencySplitter.spatial_derivative
  cases x <;> dsimp only <;> (try split) <;> rfl

mutual
/-- Every successful visit preserves the Code Structure invariant. -/
theorem visit_InvCS : ∀ (ctx : SplitterCtx) (e : UExpr) (s : SplitterState)
    (r : (UExpr × DependencySet) × SplitterState),
    DependencySplitter.visit ctx e s = some r →
    InvCS s.codestructure → InvCS r.2.codestructure
  | ctx, .floatValue u v, s, r, hv, h => by
      unfold DependencySplitter.visit at hv
      cases hv
      exact h
  | ctx, .intValue u v, s, r, hv, h => by
      unfold DependencySplitter.visit at hv
      cases hv
      exact h
  | ctx, .zero u, s, r, hv, h => by
      unfold DependencySplitter.visit at hv
      cases hv
      exact h
  | ctx, .multiIndex u ii, s, r, hv, h => by
      unfold DependencySplitter.visit at hv
      cases hv
      exact h
  | ctx, .basisFunction u i, s, r, hv, h => by
      unfold DependencySplitter.visit at hv
      split at hv
      · cases hv
      · split at hv
        · cases hv
        · cases hv
          exact h
  | ctx, .function u i, s, r, hv, h => by
      unfold DependencySplitter.visit at hv
      split at hv
      · cases hv
      · split at hv
        · cases hv
        · cases hv
          exact h
  | ctx, .facetNormal u, s, r, hv, h => by
      unfold DependencySplitter.visit at hv
      cases hv
      exact h
  | ctx, .variable u l e, s, r, hv, h => by
      unfold DependencySplitter.visit at hv
      split at hv
      · cases hv
      · cases hv
        exact h
  | ctx, .spatialDerivative u f ii, s, r, hv, h => by
      unfold DependencySplitter.visit at hv
      split at hv
      · cases hv
      next fp s1 heq1 =>
        split at hv
        · cases hv
        next iip s2 heq2 =>
          cases hv
          rw [spatial_derivative_cs]
          exact visit_InvCS ctx ii s1 _ heq2 (visit_InvCS ctx f s _ heq1 h)
  | ctx, .opNode u k xops, s, r, hv, h => by
      unfold DependencySplitter.visit at hv
      split at hv
      · cases hv
      next ops s1 heq1 =>
        exact expr_InvCS _ ops s1 r hv (visitList_InvCS ctx xops s (ops, s1) heq1 h)

/-- Every successful operand-list visit preserves the invariant. -/
theorem visitList_InvCS : ∀ (ctx : SplitterCtx) (l : List UExpr) (s : SplitterState)
    (r : List (UExpr × DependencySet) × SplitterState),
    DependencySplitter.visitList ctx l s = some r →
    InvCS s.codestructure → InvCS r.2.codestructure
  | ctx, [], s, r, hv, h => by
      unfold DependencySplitter.visitList at hv
      cases hv
      exact h
  | ctx, e :: es, s, r, hv, h => by
      unfold DependencySplitter.visitList at hv
      split at hv
      · cases hv
      next p s1 heq1 =>
        split at hv
        · cases hv
        next ps s2 heq2 =>
          cases hv
          exact visitList_InvCS ctx es s1 (ps, s2) heq2 (visit_InvCS ctx e s (p, s1) heq1 h)
end

/-- A registration with a forced count ends with that count registered:
the returned VariableInfo is found under `c` and wraps a variable
labelled `c`. -/
theorem register_some_post (e : UExpr) (deps : DependencySet) (c : Nat)
    (s : SplitterState) (h : InvCS s.codestructure) :
    lookupVI (DependencySplitter.register_expression e deps (some c) s).2.codestructure.variableinfo c =
      some (DependencySplitter.register_expression e deps (some c) s).1 ∧
    (DependencySplitter.register_expression e deps (some c) s).1.var.varLabel = some c := by
  unfold DependencySplitter.register_expression
  dsimp only [UExpr.varLabel, Option.getD]
  split
  next vinfo heq =>
    refine ⟨heq, ?_⟩
    obtain ⟨uu, ee, hv⟩ := h.label_key (c, vinfo) (lookupVI_mem _ _ _ heq)
    rw [hv]
  next heq =>
    exact ⟨lookupVI_append_new _ _ _ heq, rfl⟩

/-- A successful `handle` preserves the invariant, only succeeds on a
Variable node, and ends with the returned VariableInfo registered under
the handled variable's own label. -/
theorem handle_post (ctx : SplitterCtx) : ∀ (v : UExpr) (s : SplitterState)
    (vi : VariableInfo) (s' : SplitterState),
    DependencySplitter.handle ctx v s = some (vi, s') →
    InvCS s.codestructure →
    InvCS s'.codestructure ∧
    ∃ u l e, v = UExpr.variable u l e ∧
      lookupVI s'.codestructure.variableinfo l = some vi ∧
      vi.var.varLabel = some l
  | .variable u l e, s, vi, s', hh, h => by
      have hh' : (match lookupVI s.codestructure.variableinfo l with
          | some vinfo => some (vinfo, s)
          | none =>
            match DependencySplitter.visit ctx e s with
            | none => none
            | some (p, s1) =>
                some (DependencySplitter.register_expression p.1 p.2 (some l) s1)) =
          some (vi, s') := hh
      clear hh
      split at hh'
      next vinfo heq =>
        cases hh'
        refine ⟨h, u, l, e, rfl, ?_, ?_⟩
        · exact heq
        · obtain ⟨uu, ee, hv⟩ := h.label_key _ (lookupVI_mem _ _ _ heq)
          rw [hv]
          rfl
      next heq =>
        split at hh'
        · cases hh'
        next p s1 heqv =>
          have hR : DependencySplitter.register_expression p.1 p.2 (some l) s1 =
              (vi, s') := by
            injection hh'
          have h1 : InvCS s1.codestructure := visit_InvCS ctx e s (p, s1) heqv h
          have h2 := register_InvCS p.1 p.2 (some l) s1 h1
          obtain ⟨hlk, hvl⟩ := register_some_post p.1 p.2 l s1 h1
          rw [hR] at hlk hvl h2
          exact ⟨h2, u, l, e, rfl, hlk, hvl⟩
  | .floatValue _ _, _, _, _, hh, _ => Option.noConfusion hh
  | .intValue _ _, _, _, _, hh, _ => Option.noConfusion hh
  | .zero _, _, _, _, hh, _ => Option.noConfusion hh
  | .multiIndex _ _, _, _, _, hh, _ => Option.noConfusion hh
  | .basisFunction _ _, _, _, _, hh, _ => Option.noConfusion hh
  | .function _ _, _, _, _, hh, _ => Option.noConfusion hh
  | .facetNormal _, _, _, _, hh, _ => Option.noConfusion hh
  | .spatialDerivative _ _ _, _, _, _, hh, _ => Option.noConfusion hh
  | .opNode _ _ _, _, _, _, hh, _ => Option.noConfusion hh

/-- A successful `handleList` run preserves the invariant; its returned
VariableInfo is the one of the last variable of the list, registered under
that variable's own label in the final Code Structure. -/
theorem handleList_post (ctx : SplitterCtx) : ∀ (l : List UExpr) (s : SplitterState)
    (vi : VariableInfo) (s' : SplitterState),
    DependencySplitter.handleList ctx l s = some (vi, s') →
    InvCS s.codestructure →
    InvCS s'.codestructure ∧
    ∃ u ll e, l.getLast? = some (UExpr.variable u ll e) ∧
      lookupVI s'.codestructure.variableinfo ll = some vi ∧
      vi.var.varLabel = some ll
  | [], s, vi, s', hh, h => by cases hh
  | [v], s, vi, s', hh, h => by
      unfold DependencySplitter.handleList at hh
      obtain ⟨hinv, u, ll, e, hv, hlk, hvl⟩ := handle_post ctx v s vi s' hh h
      subst hv
      exact ⟨hinv, u, ll, e, rfl, hlk, hvl⟩
  | v :: v2 :: rest, s, vi, s', hh, h => by
      unfold DependencySplitter.handleList at hh
      split at hh
      · cases hh
      next vi0 s1 heq =>
        obtain ⟨hinv1, _⟩ := handle_post ctx v s vi0 s1 heq h
        obtain ⟨hinv, u, ll, e, hgl, hlk, hvl⟩ :=
          handleList_post ctx (v2 :: rest) s1 vi s' hh hinv1
        exact ⟨hinv, u, ll, e, by rw [List.getLast?_cons_cons]; exact hgl, hlk, hvl⟩

/-- Inversion helper for the wrap-the-root branch of
`split_by_dependencies`. -/
theorem split_inversion_aux (ctx : SplitterCtx) (ex : UExpr)
    (nextUid nextLabel : Nat) (vinfo : VariableInfo) (cs : CodeStructure)
    (h : (match DependencySplitter.handleList ctx
          (extract_variables ex ++ [UExpr.variable nextUid nextLabel ex])
          ⟨emptyCodeStructure, nextUid + 1, nextLabel + 1⟩ with
        | none => none
        | some (vinfo1, s1) => some (vinfo1, s1.codestructure)) = some (vinfo, cs)) :
    ∃ (l : List UExpr) (nu nl : Nat) (s' : SplitterState),
      DependencySplitter.handleList ctx l ⟨emptyCodeStructure, nu, nl⟩ =
        some (vinfo, s') ∧
      cs = s'.codestructure ∧
      ∀ w, l.getLast? = some w → w.varLabel = some nextLabel := by
  split at h
  · cases h
  next vinfo1 s1 heq =>
    cases h
    refine ⟨_, _, _, s1, heq, rfl, ?_⟩
    intro w hw
    rw [List.getLast?_concat] at hw
    injection hw with hw
    subst hw
    rfl

/-- Every successful `split_by_dependencies` run is a `handleList` run
from an empty Code Structure whose variable list ends in a variable
labelled by the root label. -/
theorem split_inversion : ∀ (ctx : SplitterCtx) (expression : UExpr)
    (nextUid nextLabel : Nat) (vinfo : VariableInfo) (cs : CodeStructure),
    split_by_dependencies ctx expression nextUid nextLabel = some (vinfo, cs) →
    ∃ (l : List UExpr) (nu nl : Nat) (s' : SplitterState),
      DependencySplitter.handleList ctx l ⟨emptyCodeStructure, nu, nl⟩ =
        some (vinfo, s') ∧
      cs = s'.codestructure ∧
      ∀ w, l.getLast? = some w → w.varLabel = some (rootLabel expression nextLabel)
  | ctx, .variable u l e, nextUid, nextLabel, vinfo, cs, h => by
      have h' : (if (extract_variables (UExpr.variable u l e)).getLast?.map
            (fun v => (v.uid, v.varLabel)) = some (u, some l) then
          (match DependencySplitter.handleList ctx
              (extract_variables (UExpr.variable u l e))
              ⟨emptyCodeStructure, nextUid, nextLabel⟩ with
            | none => none
            | some (vinfo1, s1) => some (vinfo1, s1.codestructure))
        else none) = some (vinfo, cs) := h
      clear h
      split at h'
      next hguard =>
        split at h'
        · cases h'
        next vinfo1 s1 heq =>
          cases h'
          refine ⟨extract_variables (UExpr.variable u l e), nextUid, nextLabel, s1,
            heq, rfl, ?_⟩
          intro w hw
          rw [hw] at hguard
          simp only [Option.map_some'] at hguard
          injection hguard with hg
          have h2 := congrArg Prod.snd hg
          simpa [rootLabel] using h2
      next => cases h'
  | ctx, .floatValue a b, nextUid, nextLabel, vinfo, cs, h =>
      split_inversion_aux ctx (UExpr.floatValue a b) nextUid nextLabel vinfo cs h
  | ctx, .intValue a b, nextUid, nextLabel, vinfo, cs, h =>
      split_inversion_aux ctx (UExpr.intValue a b) nextUid nextLabel vinfo cs h
  | ctx, .zero a, nextUid, nextLabel, vinfo, cs, h =>
      split_inversion_aux ctx (UExpr.zero a) nextUid nextLabel vinfo cs h
  | ctx, .multiIndex a b, nextUid, nextLabel, vinfo, cs, h =>
      split_inversion_aux ctx (UExpr.multiIndex a b) nextUid nextLabel vinfo cs h
  | ctx, .basisFunction a b, nextUid, nextLabel, vinfo, cs, h =>
      split_inversion_aux ctx (UExpr.basisFunction a b) nextUid nextLabel vinfo cs h
  | ctx, .function a b, nextUid, nextLabel, vinfo, cs, h =>
      split_inversion_aux ctx (UExpr.function a b) nextUid nextLabel vinfo cs h
  | ctx, .facetNormal a, nextUid, nextLabel, vinfo, cs, h =>
      split_inversion_aux ctx (UExpr.facetNormal a) nextUid nextLabel vinfo cs h
  | ctx, .spatialDerivative a b c, nextUid, nextLabel, vinfo, cs, h =>
      split_inversion_aux ctx (UExpr.spatialDerivative a b c) nextUid nextLabel vinfo cs h
  | ctx, .opNode a b c, nextUid, nextLabel, vinfo, cs, h =>
      split_inversion_aux ctx (UExpr.opNode a b c) nextUid nextLabel vinfo cs h

/-- C7: after any successful splitting run, every VariableInfo stored in a
stack of the returned Code Structure has a dependency set equal to the
DependencySet key of that stack, and the labels occupying stack slots are
pairwise distinct — variables being identified by their label (spec §3),
no registered variable occupies more than one stack slot: each is appended
to exactly one stack. -/
theorem C7_grouping (ctx : SplitterCtx) (expression : UExpr)
    (nextUid nextLabel : Nat) (vinfo : VariableInfo) (cs : CodeStructure)
    (h : split_by_dependencies ctx expression nextUid nextLabel = some (vinfo, cs)) :
    (∀ q ∈ cs.stacks', ∀ vi ∈ q.2, vi.deps = q.1) ∧ (stackLabels cs).Nodup := by
  obtain ⟨l, nu, nl, s', heq, hcs, -⟩ :=
    split_inversion ctx expression nextUid nextLabel vinfo cs h
  have hinv : InvCS s'.codestructure :=
    (handleList_post ctx l _ vinfo s' heq emptyInvCS).1
  subst hcs
  exact ⟨hinv.deps_key, hinv.perm.symm.nodup hinv.keys_nodup⟩

/-- C10: every successful `split_by_dependencies` run returns a
VariableInfo that is itself recorded in the returned Code Structure: it
wraps a variable labelled by the root label, `variableinfo` maps that
label to the very same VariableInfo, the VariableInfo lies in the stack
keyed by its own dependency set, and at least one variable is registered. -/
theorem C10_root_registered (ctx : SplitterCtx) (expression : UExpr)
    (nextUid nextLabel : Nat) (vinfo : VariableInfo) (cs : CodeStructure)
    (h : split_by_dependencies ctx expression nextUid nextLabel = some (vinfo, cs)) :
    vinfo.var.varLabel = some (rootLabel expression nextLabel) ∧
    lookupVI cs.variableinfo (rootLabel expression nextLabel) = some vinfo ∧
    inStack cs vinfo.deps vinfo ∧
    cs.variableinfo ≠ [] := by
  obtain ⟨l, nu, nl, s', heq, hcs, hlast⟩ :=
    split_inversion ctx expression nextUid nextLabel vinfo cs h
  obtain ⟨hinv, u, ll, e, hgl, hlk, hvl⟩ :=
    handleList_post ctx l _ vinfo s' heq emptyInvCS
  have hll : (UExpr.variable u ll e).varLabel =
      some (rootLabel expression nextLabel) := hlast _ hgl
  simp only [UExpr.varLabel] at hll
  injection hll with hll
  subst hll
  subst hcs
  have hmem := lookupVI_mem _ _ _ hlk
  refine ⟨hvl, hlk, ?_, List.ne_nil_of_mem hmem⟩
  exact hinv.in_stack _ hmem

/-- Witness for C7: the concrete run splitting `1.23 * v`. -/
theorem C7_grouping_witness :
    ∃ vinfo cs, split_by_dependencies ctxB exprB 10 5 = some (vinfo, cs) ∧
      (∀ q ∈ cs.stacks', ∀ vi ∈ q.2, vi.deps = q.1) ∧ (stackLabels cs).Nodup := by
  rcases hs : split_by_dependencies ctxB exprB 10 5 with _ | ⟨vinfo, cs⟩
  · have hsome : (split_by_dependencies ctxB exprB 10 5).isSome = true := by decide
    rw [hs] at hsome
    cases hsome
  · exact ⟨vinfo, cs, rfl, C7_grouping ctxB exprB 10 5 vinfo cs hs⟩

/-- Witness for C10: the concrete run splitting `1.23 * v`. -/
theorem C10_root_registered_witness :
    ∃ vinfo cs, split_by_dependencies ctxB exprB 10 5 = some (vinfo, cs) ∧
      vinfo.var.varLabel = some (rootLabel exprB 5) ∧
      lookupVI cs.variableinfo (rootLabel exprB 5) = some vinfo ∧
      inStack cs vinfo.deps vinfo ∧
      cs.variableinfo ≠ [] := by
  rcases hs : split_by_dependencies ctxB exprB 10 5 with _ | ⟨vinfo, cs⟩
  · have hsome : (split_by_dependencies ctxB exprB 10 5).isSome = true := by decide
    rw [hs] at hsome
    cases hsome
  · exact ⟨vinfo, cs, rfl, C10_root_registered ctxB exprB 10 5 vinfo cs hs⟩
